import Mathlib

/-!
Verification of the Evolve-UI server core (repository bfforex/Evolve-UI).

The JavaScript sources live in two server variants: `src/unnamed/part_003`
(the enhanced server, referred to below as `Core`) and `src/server.js`
(referred to as `ServerJS`).  Pure logic is translated directly; external
collaborators (the fetch API, the Ollama generation/embedding backend, the
SearXNG search backend, `Math.sqrt`, the cheerio HTML pipeline, the file
system and the clock) enter as explicit parameters or `Except`/`Option`
outcomes.  Numbers are rationals; JS strings are Lean strings, with the JS
string primitives re-implemented over `List Char` by structural recursion so
that every definition evaluates.
-/

namespace EvolveUI

/-! ### String primitives -/

/-- JS `String.prototype.trim` on a character list: drop leading and
trailing whitespace. -/
def trimChars (l : List Char) : List Char :=
  ((l.dropWhile Char.isWhitespace).reverse.dropWhile Char.isWhitespace).reverse

/-- JS `s.trim()`. -/
def trimStr (s : String) : String :=
  ⟨trimChars s.data⟩

/-- Splitting a character list at newline characters, keeping empty
segments, with an accumulator for the current segment. -/
def splitNlAux : List Char → List Char → List (List Char)
  | [], acc => [acc.reverse]
  | c :: rest, acc =>
    if c = '\n' then acc.reverse :: splitNlAux rest []
    else splitNlAux rest (c :: acc)

/-- JS `s.split('\n')`: always a non-empty list; empty segments are kept,
as in JavaScript. -/
def splitNl (s : String) : List String :=
  (splitNlAux s.data []).map String.mk

/-- JS `s.toLowerCase()` (ASCII case folding, which is all the sources rely
on for URL keys). -/
def lowerStr (s : String) : String :=
  ⟨s.data.map Char.toLower⟩

/-- JS `s.startsWith(pat)`. -/
def startsWithStr (s pat : String) : Bool :=
  pat.data.isPrefixOf s.data

/-- Does `pat` occur as a contiguous run inside the list? -/
def occursInChars (pat : List Char) : List Char → Bool
  | [] => pat.isEmpty
  | c :: rest => pat.isPrefixOf (c :: rest) || occursInChars pat rest

/-- JS `s.includes(pat)`. -/
def containsStr (s pat : String) : Bool :=
  occursInChars pat.data s.data

/-! ### Similarity engine
(`cosSim`, src/unnamed/part_003 lines 609-625 and src/server.js lines
153-157.)

`Math.sqrt` is a platform primitive, so both variants are parameterised by
a square-root function `sqrtFn`; the theorems assume of it only `sqrtFn 0 =
0` and nonnegativity on nonnegative inputs, both true of `Math.sqrt`.  The
JS loop over `i < a.length` is modelled by folding over `a.zip b`, which
agrees with the source whenever `a.length = b.length` — the only case in
which the loop reads defined values (the part_003 variant returns 0 on a
length mismatch before reaching the loop, and the spec declares mismatched
lengths undefined for the server.js variant). -/

/-- The accumulation loop shared by both `cosSim` variants: builds
`(dotProduct, normA, normB)` over the paired entries. -/
def cosSimSums (a b : List ℚ) : ℚ × ℚ × ℚ :=
  (a.zip b).foldl
    (fun acc p => (acc.1 + p.1 * p.2, acc.2.1 + p.1 * p.1, acc.2.2 + p.2 * p.2))
    (0, 0, 0)

namespace Core

/-- `cosSim` from src/unnamed/part_003: `null`/`undefined` arguments (the
`none` cases) and a length mismatch return 0; otherwise
`dot / (sqrt normA * sqrt normB)` behind an explicit zero-denominator
guard. -/
def cosSim (sqrtFn : ℚ → ℚ) : Option (List ℚ) → Option (List ℚ) → ℚ
  | some a, some b =>
    if a.length ≠ b.length then 0
    else
      let s := cosSimSums a b
      let denominator := sqrtFn s.2.1 * sqrtFn s.2.2
      if denominator = 0 then 0 else s.1 / denominator
  | _, _ => 0

end Core

namespace ServerJS

/-- The denominator of the src/server.js `cosSim`:
`Math.sqrt(na) * Math.sqrt(nb) + 1e-8`. -/
def cosSimDen (sqrtFn : ℚ → ℚ) (a b : List ℚ) : ℚ :=
  let s := cosSimSums a b
  sqrtFn s.2.1 * sqrtFn s.2.2 + 1e-8

/-- `cosSim` from src/server.js: no argument guards, ε-guarded
denominator. -/
def cosSim (sqrtFn : ℚ → ℚ) (a b : List ℚ) : ℚ :=
  (cosSimSums a b).1 / cosSimDen sqrtFn a b

end ServerJS

/-! ### Memory store (src/unnamed/part_003 lines 726-837) -/

/-- A stored long-term memory item, with the field shape built by
`upsertLongTermMemory`. -/
structure MemoryItem where
  id : Nat
  content : String
  type : String
  importance : String
  tags : List String
  timestamp : String
  embedding : Option (List ℚ)
  source : String
  deriving DecidableEq

/-- The persisted memory document `{ longTerm, nextId }`. -/
structure Memory where
  longTerm : List MemoryItem
  nextId : Nat
  deriving DecidableEq

/-- The process-external file `data/memory.json`, together with a count of
the writes performed on it: `loadMemory` reads `mem` and `saveMemory`
overwrites `mem` and bumps `writes`. -/
structure MemoryFile where
  mem : Memory
  writes : Nat
  deriving DecidableEq

/-- An item as scored by `retrieveLongTermMemory` (the source spreads the
item's fields next to `similarity`; here they stay bundled). -/
structure ScoredItem where
  item : MemoryItem
  similarity : ℚ
  deriving DecidableEq

/-- Insert one scored item into a list sorted non-increasingly by
similarity, after every element of greater-or-equal similarity.  Folding
`insertDesc` left-to-right reproduces the source's
`sort((a, b) => b.similarity - a.similarity)`: JavaScript's `Array.sort` is
stable, and the stable non-increasing sort of a list is unique. -/
def insertDesc (x : ScoredItem) : List ScoredItem → List ScoredItem
  | [] => [x]
  | y :: ys =>
    if y.similarity < x.similarity then x :: y :: ys else y :: insertDesc x ys

/-- Stable sort, non-increasing by similarity. -/
def sortDesc (l : List ScoredItem) : List ScoredItem :=
  l.foldl (fun acc x => insertDesc x acc) []

/-- The scored, thresholded candidate list built by
`retrieveLongTermMemory` before sorting: keep the items that carry an
embedding, score each against the query embedding, and keep scores
`≥ minSim`.  Its order is the store's insertion order. -/
def scoredCandidates (sqrtFn : ℚ → ℚ) (qe : List ℚ) (memory : Memory)
    (minSim : ℚ) : List ScoredItem :=
  ((memory.longTerm.filter (fun it => it.embedding.isSome)).map
      (fun it => ⟨it, Core.cosSim sqrtFn (some qe) it.embedding⟩)).filter
    (fun s => decide (minSim ≤ s.similarity))

/-- `retrieveLongTermMemory(query, k, minSim)` from src/unnamed/part_003
lines 741-765.  `queryEmbedding` is the outcome of `ollamaEmbed(query)`:
`none` when the call throws or returns no vector, both of which make the
source return `[]`. -/
def retrieveLongTermMemory (sqrtFn : ℚ → ℚ) (queryEmbedding : Option (List ℚ))
    (memory : Memory) (k : Nat) (minSim : ℚ) : List ScoredItem :=
  if memory.longTerm.isEmpty then []
  else
    match queryEmbedding with
    | none => []
    | some qe => (sortDesc (scoredCandidates sqrtFn qe memory minSim)).take k

/-- A candidate object passed to `upsertLongTermMemory`.  JS string
falsiness is emptiness, so the `item.x || default` fallbacks read string
fields directly; `tags` keeps `Option` because an empty array is truthy in
JS while `item.tags || []` only replaces `null`/`undefined`. -/
structure Candidate where
  content : String
  type : String
  importance : String
  tags : Option (List String)
  source : String
  deriving DecidableEq

/-- The duplicate test inside `upsertLongTermMemory`'s loop: with an
embedding in hand and a non-empty store, scan the stored embedded items for
cosine similarity strictly above the 0.95 threshold (the loop's `break` is
absorbed by `List.any`). -/
def isDuplicate (sqrtFn : ℚ → ℚ) (memory : Memory) : Option (List ℚ) → Bool
  | none => false
  | some e =>
    decide (0 < memory.longTerm.length) &&
      memory.longTerm.any (fun ex =>
        match ex.embedding with
        | some ee => decide ((0.95 : ℚ) < Core.cosSim sqrtFn (some e) (some ee))
        | none => false)

/-- The fresh item built from a non-duplicate candidate: `id` is the
collection's current `nextId` (the source's `memory.nextId++`). -/
def newItemFor (embed : String → Option (List ℚ)) (now : String)
    (memory : Memory) (c : Candidate) : MemoryItem :=
  { id := memory.nextId
    content := c.content
    type := if c.type ≠ "" then c.type else "general"
    importance := if c.importance ≠ "" then c.importance else "medium"
    tags := c.tags.getD []
    timestamp := now
    embedding := embed c.content
    source := if c.source ≠ "" then c.source else "system" }

/-- One iteration of the `for (const item of memoryItems)` loop of
`upsertLongTermMemory`: skip a non-object candidate (`none`) or one with
falsy content, attempt an embedding (`embed` returns `none` when
`ollamaEmbed` throws — the source then stores the item without an
embedding), skip duplicates, and otherwise append a fresh item while
bumping `nextId`. -/
def upsertStep (sqrtFn : ℚ → ℚ) (embed : String → Option (List ℚ))
    (now : String) (st : Memory × List MemoryItem) :
    Option Candidate → Memory × List MemoryItem
  | none => st
  | some c =>
    if c.content = "" then st
    else
      let emb := embed c.content
      if isDuplicate sqrtFn st.1 emb then st
      else
        let it := newItemFor embed now st.1 c
        (⟨st.1.longTerm ++ [it], st.1.nextId + 1⟩, st.2 ++ [it])

/-- The whole candidate loop of `upsertLongTermMemory`, on the in-memory
copy of the collection. -/
def upsertLoop (sqrtFn : ℚ → ℚ) (embed : String → Option (List ℚ))
    (now : String) (memory : Memory) (items : List (Option Candidate)) :
    Memory × List MemoryItem :=
  items.foldl (upsertStep sqrtFn embed now) (memory, [])

/-- `upsertLongTermMemory(memoryItems)` from src/unnamed/part_003 lines
767-837, acting on the persisted file: load the collection, run the
candidate loop, and save once — iff anything was added — before returning
the inserted items.  `now` is `nowISO()`. -/
def upsertLongTermMemory (sqrtFn : ℚ → ℚ) (embed : String → Option (List ℚ))
    (now : String) (file : MemoryFile) (items : List (Option Candidate)) :
    MemoryFile × List MemoryItem :=
  let r := upsertLoop sqrtFn embed now file.mem items
  if 0 < r.2.length then (⟨r.1, file.writes + 1⟩, r.2) else (file, r.2)

/-- Claim-side characterisation of the duplicate condition, for comparison
with the source-side `isDuplicate`: the candidate's embedding exists and
has cosine similarity above 0.95 with some stored embedded item. -/
def DupWitness (sqrtFn : ℚ → ℚ) (memory : Memory) (emb : Option (List ℚ)) : Prop :=
  ∃ e, emb = some e ∧ ∃ ex ∈ memory.longTerm, ∃ ee,
    ex.embedding = some ee ∧ (0.95 : ℚ) < Core.cosSim sqrtFn (some e) (some ee)

/-! ### Search orchestrator (src/unnamed/part_003, `SmartWebSearch`) -/

/-- A processed search result as produced by `webSearch`. -/
structure SearchResult where
  title : String
  url : String
  snippet : String
  deriving DecidableEq

/-- The pure decision core of `shouldContinueSearching(query, currentResults,
complexity)` (src/unnamed/part_003 lines 553-606): `resultCount` is the
length of `currentResults` when it is an array and 0 otherwise; the unused
`query` argument and the returned `reason`/`confidence`/`thoughts` fields
are omitted. -/
def shouldContinueSearching (currentResults : Option (List SearchResult))
    (complexity : String) : Bool :=
  let resultCount := (currentResults.getD []).length
  if resultCount = 0 then true
  else if resultCount < 3 then complexity == "high"
  else if resultCount < 8 then complexity == "high" && decide (resultCount < 5)
  else false

/-- The characters of the source's bullet class.  The source file is
mojibake-encoded: the class `[-â€¢*]` literally contains dash, U+00E2,
U+20AC, U+00A2 and asterisk. -/
def bulletChar (c : Char) : Bool :=
  c = '-' || c = 'â' || c = '€' || c = '¢' || c = '*'

/-- Match a line against `/^\d+\.\s*(.+)$/` and return the trimmed capture:
a non-empty digit prefix, a literal dot, and a non-empty remainder.  (The
greedy `\s*`/`(.+)` split inside the remainder never changes the trimmed
capture, so trimming the whole remainder is exact.) -/
def matchNumbered (line : String) : Option String :=
  let ds := line.data.takeWhile Char.isDigit
  match line.data.dropWhile Char.isDigit with
  | '.' :: tail =>
    if ds.isEmpty || tail.isEmpty then none else some (trimStr ⟨tail⟩)
  | _ => none

/-- Match a line against `/^[-â€¢*]\s*(.+)$/` and return the trimmed
capture. -/
def matchBullet (line : String) : Option String :=
  match line.data with
  | c :: tail =>
    if bulletChar c && !tail.isEmpty then some (trimStr ⟨tail⟩) else none
  | [] => none

/-- The parsed list items of `extractQueriesFromResponse`: non-blank lines,
each matched against the numbered pattern and then the bullet pattern. -/
def parsedQueries (response : String) : List String :=
  ((splitNl response).filter (fun line => trimStr line ≠ "")).filterMap
    (fun line => (matchNumbered line).orElse (fun _ => matchBullet line))

/-- `extractQueriesFromResponse(response)` from src/unnamed/part_003 lines
502-514: the parsed items, or, when none parse, the single-element fallback
`[response.split('\n')[0] || '']`. -/
def extractQueriesFromResponse (response : String) : List String :=
  let queries := parsedQueries response
  if queries.length ≠ 0 then queries else [(splitNl response).headD ""]

/-- A per-query entry of `executeSearches`' `results` accumulator. -/
structure QueryBatch where
  query : String
  results : List SearchResult
  count : Nat
  deriving DecidableEq

/-- The `for (const query of queries)` loop of `executeSearches`, returning
`(results, allSources, calls)`: the per-query batches, the concatenated raw
sources, and — explicit instrumentation that the source does not return —
the queries actually sent to the search backend, in call order.  A backend
failure (`Except.error`) is caught, logged and skipped. -/
def execLoop (search : String → Except Unit (List SearchResult)) :
    List String → List QueryBatch × List SearchResult × List String
  | [] => ([], [], [])
  | q :: rest =>
    let tl := execLoop search rest
    match search q with
    | .error _ => (tl.1, tl.2.1, q :: tl.2.2)
    | .ok rs =>
      if 0 < rs.length then (⟨q, rs, rs.length⟩ :: tl.1, rs ++ tl.2.1, q :: tl.2.2)
      else (tl.1, tl.2.1, q :: tl.2.2)

/-- `deduplicateSources(sources)` from src/unnamed/part_003 lines 543-551:
keep the first occurrence of each lower-cased URL; `seen` is the source's
`Set`. -/
def deduplicateSources : List String → List SearchResult → List SearchResult
  | _, [] => []
  | seen, s :: rest =>
    if lowerStr s.url ∈ seen then deduplicateSources seen rest
    else s :: deduplicateSources (lowerStr s.url :: seen) rest

/-- The record returned by `executeSearches`. -/
structure ExecOutcome where
  searchResults : List QueryBatch
  allSources : List SearchResult
  totalSources : Nat
  deriving DecidableEq

/-- `executeSearches(queries, options)` from src/unnamed/part_003 lines
516-541. -/
def executeSearches (search : String → Except Unit (List SearchResult))
    (queries : List String) : ExecOutcome :=
  let r := execLoop search queries
  ⟨r.1, deduplicateSources [] r.2.1, r.2.1.length⟩

/-! ### The search-backend adapter `webSearch`
(src/unnamed/part_003 lines 840-896 and src/server.js lines 225-309.)

Each of the source's three URL variants produces one fetch outcome: a
thrown fetch (`Except.error`, covering abort/timeout and network errors) or
a response with a status flag, a content type and the decoded
`json.results || []` array.  JS string falsiness is emptiness, so absent
raw fields are the empty string. -/

/-- A raw entry of the search backend's JSON `results` array. -/
structure RawResult where
  url : String
  title : String
  content : String
  snippet : String
  deriving DecidableEq

/-- One HTTP response from a search URL variant. -/
structure SearchResponse where
  ok : Bool
  contentType : String
  results : List RawResult
  deriving DecidableEq

namespace Core

/-- The `.map(...)` body of part_003's `webSearch`:
`{title: (r.title || r.url).trim(), url: r.url.trim(),
snippet: (r.content || r.snippet || '').trim()}`. -/
def mapRaw (r : RawResult) : SearchResult :=
  ⟨trimStr (if r.title ≠ "" then r.title else r.url),
    trimStr r.url,
    trimStr (if r.content ≠ "" then r.content else r.snippet)⟩

/-- part_003's processing of one response's raw results: keep
`http`-prefixed URLs, truncate to `count`, map to `SearchResult`s. -/
def processResults (count : Nat) (resp : SearchResponse) : List SearchResult :=
  ((resp.results.filter (fun r => startsWithStr r.url "http")).take count).map mapRaw

/-- One iteration of part_003's URL-variant loop: a thrown fetch, a non-2xx
status, a non-JSON content type and an empty processed list all fall
through to the next variant (`none`); otherwise the processed results are
accepted. -/
def tryUrl (count : Nat) : Except Unit SearchResponse → Option (List SearchResult)
  | .error _ => none
  | .ok resp =>
    if !resp.ok then none
    else if !containsStr resp.contentType "application/json" then none
    else
      let rs := processResults count resp
      if 0 < rs.length then some rs else none

/-- `webSearch(query, {count})` from src/unnamed/part_003, over the ordered
fetch outcomes of its URL variants: the first accepted variant wins, and
`[]` is returned when every variant falls through. -/
def webSearch (count : Nat) : List (Except Unit SearchResponse) → List SearchResult
  | [] => []
  | attempt :: rest =>
    match tryUrl count attempt with
    | some rs => rs
    | none => webSearch count rest

end Core

namespace ServerJS

/-- server.js's processing of one response's raw results: the URL filter
spells out `r.url && r.url.startsWith('http')`, the map body is the same as
part_003's (`r.title || r.url || ''` and `r.title || r.url` agree, both
giving `""` only when title and URL are both empty), and a final
`.filter(r => r.title && r.url)` follows the map. -/
def processResults (count : Nat) (resp : SearchResponse) : List SearchResult :=
  ((((resp.results.filter
        (fun r => r.url ≠ "" && startsWithStr r.url "http")).take count).map
      Core.mapRaw).filter
    (fun r => r.title ≠ "" && r.url ≠ ""))

/-- One iteration of server.js's URL-variant loop. -/
def tryUrl (count : Nat) : Except Unit SearchResponse → Option (List SearchResult)
  | .error _ => none
  | .ok resp =>
    if !resp.ok then none
    else if !containsStr resp.contentType "application/json" then none
    else
      let rs := processResults count resp
      if 0 < rs.length then some rs else none

/-- `webSearch(query, {count})` from src/server.js lines 225-309, over the
ordered fetch outcomes of its URL variants. -/
def webSearch (count : Nat) : List (Except Unit SearchResponse) → List SearchResult
  | [] => []
  | attempt :: rest =>
    match tryUrl count attempt with
    | some rs => rs
    | none => webSearch count rest

end ServerJS

/-! ### Content extractor `fetchAndClean`
(src/unnamed/part_003 lines 898-935 and src/server.js lines 311-363.) -/

/-- JS `text.replace(/\s+/g, ' ')`: every maximal run of whitespace becomes
a single space.  `prevWs` records whether the previous character belonged
to a run already replaced. -/
def collapseRun : List Char → Bool → List Char
  | [], _ => []
  | c :: rest, prevWs =>
    if c.isWhitespace then
      if prevWs then collapseRun rest true
      else ' ' :: collapseRun rest true
    else c :: collapseRun rest false

/-- The tail of both `fetchAndClean` variants:
`text.replace(/\s+/g, ' ').trim().slice(0, cap)`. -/
def cleanBody (cap : Nat) (text : String) : String :=
  ⟨(trimChars (collapseRun text.data false)).take cap⟩

/-- What it means for returned text to have collapsed whitespace: every
whitespace character is a plain space, and no two adjacent characters are
both whitespace. -/
def WsCollapsed (s : String) : Prop :=
  (∀ c ∈ s.data, c.isWhitespace = true → c = ' ') ∧
    List.Chain' (fun a b => ¬(a.isWhitespace = true ∧ b.isWhitespace = true)) s.data

/-- A fetched HTTP response as `fetchAndClean` sees it. -/
structure FetchResponse where
  ok : Bool
  contentType : String
  body : String
  deriving DecidableEq

/-- The control flow shared verbatim by both `fetchAndClean` variants.  The
fetch outcome is the `Except` argument (timeout aborts and network failures
are `Except.error`); `extract` stands for the cheerio pipeline — load,
removal of non-content elements, main-content selection, `.text()` — an
external library call whose output is then cleaned and capped at `cap`
characters. -/
def fetchAndCleanWith (cap : Nat) (extract : String → String) :
    Except Unit FetchResponse → String
  | .error _ => ""
  | .ok r =>
    if !r.ok then ""
    else if !containsStr r.contentType "text/html" then ""
    else cleanBody cap (extract r.body)

namespace Core

/-- `fetchAndClean(url, timeout)` from src/unnamed/part_003: cap 20000. -/
def fetchAndClean (extract : String → String)
    (outcome : Except Unit FetchResponse) : String :=
  fetchAndCleanWith 20000 extract outcome

end Core

namespace ServerJS

/-- `fetchAndClean(url, timeout)` from src/server.js: identical control
flow, with the cap reduced to 15000 characters. -/
def fetchAndClean (extract : String → String)
    (outcome : Except Unit FetchResponse) : String :=
  fetchAndCleanWith 15000 extract outcome

end ServerJS

/-- A fixed concrete search result used to build example inputs. -/
def sampleResult : SearchResult :=
  ⟨"Example", "http://example.com", "snippet"⟩

/-- A raw backend result with an `http`-prefixed URL but an empty title. -/
def rawNoTitle : RawResult :=
  ⟨"http://a", "", "", ""⟩

/-- A successful JSON search response whose only raw result is
`rawNoTitle`. -/
def respNoTitle : SearchResponse :=
  ⟨true, "application/json", [rawNoTitle]⟩

/-! ## Theorems -/

/-! ### Whitespace collapsing (for `fetchAndClean`) -/

theorem collapseRun_ws_space :
    ∀ (l : List Char) (b : Bool), ∀ c ∈ collapseRun l b,
      c.isWhitespace = true → c = ' ' := by
  intro l
  induction l with
  | nil => intro b c hc; simp [collapseRun] at hc
  | cons x rest ih =>
    intro b c hc hw
    simp only [collapseRun] at hc
    by_cases hx : x.isWhitespace = true
    · rw [if_pos hx] at hc
      cases b with
      | true => exact ih true c hc hw
      | false =>
        rcases List.mem_cons.mp hc with h | h
        · exact h
        · exact ih true c h hw
    · rw [if_neg hx] at hc
      rcases List.mem_cons.mp hc with h | h
      · exact absurd (h ▸ hw) hx
      · exact ih false c h hw

theorem collapseRun_head_not_ws :
    ∀ (l : List Char) (c : Char), (collapseRun l true).head? = some c →
      c.isWhitespace = false := by
  intro l
  induction l with
  | nil => intro c hc; simp [collapseRun] at hc
  | cons x rest ih =>
    intro c hc
    simp only [collapseRun] at hc
    by_cases hx : x.isWhitespace = true
    · rw [if_pos hx] at hc
      exact ih c hc
    · rw [if_neg hx] at hc
      simp only [List.head?_cons, Option.some.injEq] at hc
      rw [← hc]
      exact Bool.not_eq_true x.isWhitespace ▸ hx

theorem collapseRun_chain :
    ∀ (l : List Char) (b : Bool),
      List.Chain' (fun a d => ¬(a.isWhitespace = true ∧ d.isWhitespace = true))
        (collapseRun l b) := by
  intro l
  induction l with
  | nil => intro b; simp [collapseRun]
  | cons x rest ih =>
    intro b
    simp only [collapseRun]
    by_cases hx : x.isWhitespace = true
    · rw [if_pos hx]
      cases b with
      | true => exact ih true
      | false =>
        refine List.chain'_cons'.mpr ⟨?_, ih true⟩
        intro y hy
        have := collapseRun_head_not_ws rest y hy
        simp [this]
    · rw [if_neg hx]
      refine List.chain'_cons'.mpr ⟨?_, ih false⟩
      intro y _
      simp [hx]

theorem trimChars_sublist (l : List Char) : List.Sublist (trimChars l) l := by
  unfold trimChars
  have h1 : List.Sublist (l.dropWhile Char.isWhitespace) l :=
    (List.dropWhile_suffix _).sublist
  have h2 : List.Sublist
      ((l.dropWhile Char.isWhitespace).reverse.dropWhile Char.isWhitespace)
      (l.dropWhile Char.isWhitespace).reverse :=
    (List.dropWhile_suffix _).sublist
  have h3 := h2.reverse
  rw [List.reverse_reverse] at h3
  exact h3.trans h1

theorem trimChars_chain {R : Char → Char → Prop}
    (hsymm : ∀ a b, R a b → R b a) (l : List Char)
    (h : List.Chain' R l) : List.Chain' R (trimChars l) := by
  unfold trimChars
  have h1 : List.Chain' R (l.dropWhile Char.isWhitespace) :=
    h.suffix (List.dropWhile_suffix _)
  have h2 : List.Chain' R (l.dropWhile Char.isWhitespace).reverse :=
    List.chain'_reverse.mpr (h1.imp fun {a b} hab => hsymm a b hab)
  have h3 : List.Chain' R
      ((l.dropWhile Char.isWhitespace).reverse.dropWhile Char.isWhitespace) :=
    h2.suffix (List.dropWhile_suffix _)
  exact List.chain'_reverse.mpr (h3.imp fun {a b} hab => hsymm a b hab)

theorem cleanBody_length (cap : Nat) (t : String) :
    (cleanBody cap t).length ≤ cap :=
  List.length_take_le cap _

theorem cleanBody_collapsed (cap : Nat) (t : String) :
    WsCollapsed (cleanBody cap t) := by
  constructor
  · intro c hc hw
    have h1 : c ∈ trimChars (collapseRun t.data false) :=
      (List.take_sublist _ _).subset hc
    have h2 : c ∈ collapseRun t.data false := (trimChars_sublist _).subset h1
    exact collapseRun_ws_space t.data false c h2 hw
  · have hsym : ∀ a b : Char,
        (¬(a.isWhitespace = true ∧ b.isWhitespace = true)) →
          ¬(b.isWhitespace = true ∧ a.isWhitespace = true) :=
      fun _ _ h hab => h ⟨hab.2, hab.1⟩
    exact (trimChars_chain hsym _ (collapseRun_chain t.data false)).take cap

theorem wsCollapsed_empty : WsCollapsed "" := by
  constructor
  · intro c hc
    simp at hc
  · simp [WsCollapsed, List.chain'_nil]

theorem fetchAndCleanWith_cases (cap : Nat) (extract : String → String)
    (resp : FetchResponse) :
    fetchAndCleanWith cap extract (Except.ok resp) = "" ∨
      fetchAndCleanWith cap extract (Except.ok resp) =
        cleanBody cap (extract resp.body) := by
  simp only [fetchAndCleanWith]
  by_cases h1 : (!resp.ok) = true
  · left; rw [if_pos h1]
  · by_cases h2 : (!containsStr resp.contentType "text/html") = true
    · left; rw [if_neg h1, if_pos h2]
    · right; rw [if_neg h1, if_neg h2]

theorem fetchAndCleanWith_length (cap : Nat) (extract : String → String)
    (resp : FetchResponse) :
    (fetchAndCleanWith cap extract (Except.ok resp)).length ≤ cap := by
  rcases fetchAndCleanWith_cases cap extract resp with h | h
  · rw [h]; exact Nat.zero_le cap
  · rw [h]; exact cleanBody_length cap _

theorem fetchAndCleanWith_collapsed (cap : Nat) (extract : String → String)
    (resp : FetchResponse) :
    WsCollapsed (fetchAndCleanWith cap extract (Except.ok resp)) := by
  rcases fetchAndCleanWith_cases cap extract resp with h | h
  · rw [h]; exact wsCollapsed_empty
  · rw [h]; exact cleanBody_collapsed cap _

/-- Claim C7: `fetchAndClean` never throws — on a thrown/timed-out fetch,
a non-success status, or a non-HTML content type it returns empty text —
and any text it returns has collapsed whitespace and is truncated to the
configured character cap (20000 in part_003, 15000 in server.js). -/
theorem fetchAndClean_safe (extract : String → String) (resp : FetchResponse) :
    Core.fetchAndClean extract (Except.error ()) = "" ∧
    (resp.ok = false → Core.fetchAndClean extract (Except.ok resp) = "") ∧
    (containsStr resp.contentType "text/html" = false →
      Core.fetchAndClean extract (Except.ok resp) = "") ∧
    (Core.fetchAndClean extract (Except.ok resp)).length ≤ 20000 ∧
    WsCollapsed (Core.fetchAndClean extract (Except.ok resp)) ∧
    ServerJS.fetchAndClean extract (Except.error ()) = "" ∧
    (resp.ok = false → ServerJS.fetchAndClean extract (Except.ok resp) = "") ∧
    (containsStr resp.contentType "text/html" = false →
      ServerJS.fetchAndClean extract (Except.ok resp) = "") ∧
    (ServerJS.fetchAndClean extract (Except.ok resp)).length ≤ 15000 ∧
    WsCollapsed (ServerJS.fetchAndClean extract (Except.ok resp)) := by
  have hok : ∀ cap, resp.ok = false →
      fetchAndCleanWith cap extract (Except.ok resp) = "" := by
    intro cap h
    simp [fetchAndCleanWith, h]
  have hct : ∀ cap, containsStr resp.contentType "text/html" = false →
      fetchAndCleanWith cap extract (Except.ok resp) = "" := by
    intro cap h
    cases hok2 : resp.ok <;> simp [fetchAndCleanWith, hok2, h]
  exact ⟨rfl, hok 20000, hct 20000,
    fetchAndCleanWith_length 20000 extract resp,
    fetchAndCleanWith_collapsed 20000 extract resp,
    rfl, hok 15000, hct 15000,
    fetchAndCleanWith_length 15000 extract resp,
    fetchAndCleanWith_collapsed 15000 extract resp⟩

theorem fetchAndClean_safe_witness :
    Core.fetchAndClean (fun s => s)
      (Except.ok ⟨false, "text/html", "hello world"⟩) = "" ∧
    ServerJS.fetchAndClean (fun s => s)
      (Except.ok ⟨true, "application/pdf", "x"⟩) = "" := by
  constructor
  · exact (fetchAndClean_safe (fun s => s) ⟨false, "text/html", "hello world"⟩).2.1 rfl
  · exact (fetchAndClean_safe (fun s => s) ⟨true, "application/pdf", "x"⟩).2.2.2.2.2.2.2.1
      (by decide)

/-! ### Search-continuation heuristic -/

/-- Claim C3: `shouldContinueSearching` is a pure decision over the
accumulated result count and the complexity label: continue at count 0;
for counts 1-2, continue exactly when complexity is "high"; for counts 3-7,
continue exactly when complexity is "high" and the count is below 5; stop
at counts of 8 or more; and in particular the three quoted examples. -/
theorem shouldContinueSearching_table (l : List SearchResult) (c : String) :
    (l.length = 0 → shouldContinueSearching (some l) c = true) ∧
    (1 ≤ l.length → l.length ≤ 2 →
      (shouldContinueSearching (some l) c = true ↔ c = "high")) ∧
    (3 ≤ l.length → l.length ≤ 7 →
      (shouldContinueSearching (some l) c = true ↔ (c = "high" ∧ l.length < 5))) ∧
    (8 ≤ l.length → shouldContinueSearching (some l) c = false) ∧
    shouldContinueSearching (some []) "medium" = true ∧
    shouldContinueSearching (some (List.replicate 2 sampleResult)) "high" = true ∧
    shouldContinueSearching (some (List.replicate 8 sampleResult)) "high" = false := by
  refine ⟨?_, ?_, ?_, ?_, by decide, by decide, by decide⟩
  · intro h
    simp [shouldContinueSearching, h]
  · intro h1 h2
    simp only [shouldContinueSearching, Option.getD_some]
    rw [if_neg (by omega), if_pos (by omega)]
    exact beq_iff_eq
  · intro h1 h2
    simp only [shouldContinueSearching, Option.getD_some]
    rw [if_neg (by omega), if_neg (by omega), if_pos (by omega)]
    simp [Bool.and_eq_true, beq_iff_eq, decide_eq_true_iff]
  · intro h
    simp only [shouldContinueSearching, Option.getD_some]
    rw [if_neg (by omega), if_neg (by omega), if_neg (by omega)]

theorem shouldContinueSearching_witness :
    shouldContinueSearching (some []) "medium" = true :=
  (shouldContinueSearching_table [] "medium").1 rfl

/-! ### Similarity-engine safety -/

theorem cosSimSums_left_zero (n : Nat) (v : List ℚ) :
    (cosSimSums (List.replicate n 0) v).1 = 0 ∧
      (cosSimSums (List.replicate n 0) v).2.1 = 0 := by
  have key : ∀ (l : List (ℚ × ℚ)) (acc : ℚ × ℚ × ℚ), (∀ p ∈ l, p.1 = 0) →
      (l.foldl
        (fun acc p => (acc.1 + p.1 * p.2, acc.2.1 + p.1 * p.1, acc.2.2 + p.2 * p.2))
        acc).1 = acc.1 ∧
      (l.foldl
        (fun acc p => (acc.1 + p.1 * p.2, acc.2.1 + p.1 * p.1, acc.2.2 + p.2 * p.2))
        acc).2.1 = acc.2.1 := by
    intro l
    induction l with
    | nil => intro acc _; exact ⟨rfl, rfl⟩
    | cons p rest ih =>
      intro acc hz
      have hp : p.1 = 0 := hz p (List.mem_cons_self p rest)
      have hrest : ∀ q ∈ rest, q.1 = 0 := fun q hq => hz q (List.mem_cons_of_mem p hq)
      have := ih (acc.1 + p.1 * p.2, acc.2.1 + p.1 * p.1, acc.2.2 + p.2 * p.2) hrest
      simpa [hp] using this
  have hz : ∀ p ∈ (List.replicate n (0 : ℚ)).zip v, p.1 = 0 := by
    intro p hp
    exact List.eq_of_mem_replicate (List.of_mem_zip hp).1
  exact key _ _ hz

theorem cosSimSums_norms_nonneg (a b : List ℚ) :
    0 ≤ (cosSimSums a b).2.1 ∧ 0 ≤ (cosSimSums a b).2.2 := by
  have key : ∀ (l : List (ℚ × ℚ)) (acc : ℚ × ℚ × ℚ),
      0 ≤ acc.2.1 → 0 ≤ acc.2.2 →
      0 ≤ (l.foldl
        (fun acc p => (acc.1 + p.1 * p.2, acc.2.1 + p.1 * p.1, acc.2.2 + p.2 * p.2))
        acc).2.1 ∧
      0 ≤ (l.foldl
        (fun acc p => (acc.1 + p.1 * p.2, acc.2.1 + p.1 * p.1, acc.2.2 + p.2 * p.2))
        acc).2.2 := by
    intro l
    induction l with
    | nil => intro acc h1 h2; exact ⟨h1, h2⟩
    | cons p rest ih =>
      intro acc h1 h2
      exact ih _ (add_nonneg h1 (mul_self_nonneg p.1))
        (add_nonneg h2 (mul_self_nonneg p.2))
  exact key _ _ le_rfl le_rfl

/-- Claim C8: cosine similarity of the all-zero vector with any
(equal-length) vector is 0 in both server variants, and the division is
never unguarded: the part_003 variant takes its explicit zero-denominator
branch, and the server.js denominator `sqrt(na)*sqrt(nb) + 1e-8` is
strictly positive for all inputs.  `sqrtFn` is `Math.sqrt`, of which only
`sqrtFn 0 = 0` and nonnegativity on nonnegative inputs are assumed. -/
theorem cosSim_zero_vector (sqrtFn : ℚ → ℚ) (h0 : sqrtFn 0 = 0)
    (hpos : ∀ x : ℚ, 0 ≤ x → 0 ≤ sqrtFn x) (n : Nat) (v : List ℚ)
    (hlen : v.length = n) :
    Core.cosSim sqrtFn (some (List.replicate n 0)) (some v) = 0 ∧
    ServerJS.cosSim sqrtFn (List.replicate n 0) v = 0 ∧
    ∀ a b : List ℚ, 0 < ServerJS.cosSimDen sqrtFn a b := by
  refine ⟨?_, ?_, ?_⟩
  · simp only [Core.cosSim]
    rw [if_neg (by simp [List.length_replicate, hlen])]
    have hna := (cosSimSums_left_zero n v).2
    rw [hna, h0, zero_mul]
    simp
  · simp only [ServerJS.cosSim]
    rw [(cosSimSums_left_zero n v).1, zero_div]
  · intro a b
    simp only [ServerJS.cosSimDen]
    have h1 := (cosSimSums_norms_nonneg a b).1
    have h2 := (cosSimSums_norms_nonneg a b).2
    have hprod : 0 ≤ sqrtFn (cosSimSums a b).2.1 * sqrtFn (cosSimSums a b).2.2 :=
      mul_nonneg (hpos _ h1) (hpos _ h2)
    have heps : (0 : ℚ) < 1e-8 := by norm_num
    linarith

theorem cosSim_zero_vector_witness :
    Core.cosSim (fun _ => 0) (some (List.replicate 2 0)) (some [3, 4]) = 0 ∧
    ServerJS.cosSim (fun _ => 0) (List.replicate 2 0) [3, 4] = 0 ∧
    0 < ServerJS.cosSimDen (fun _ => 0) [1] [2] := by
  have h := cosSim_zero_vector (fun _ => 0) rfl (fun _ _ => le_refl 0) 2 [3, 4] rfl
  exact ⟨h.1, h.2.1, h.2.2 [1] [2]⟩

/-- Claim C10: the part_003 `cosSim` is total at its public interface:
a `null`/`undefined` argument on either side, or a length mismatch, yields
exactly 0 — no truncation, no NaN, no exception. -/
theorem cosSim_guards_total (sqrtFn : ℚ → ℚ) (a b : Option (List ℚ)) :
    Core.cosSim sqrtFn none b = 0 ∧
    Core.cosSim sqrtFn a none = 0 ∧
    ∀ xs ys : List ℚ, xs.length ≠ ys.length →
      Core.cosSim sqrtFn (some xs) (some ys) = 0 := by
  refine ⟨?_, ?_, ?_⟩
  · cases b <;> rfl
  · cases a <;> rfl
  · intro xs ys h
    simp only [Core.cosSim]
    rw [if_pos h]

theorem cosSim_guards_total_witness :
    Core.cosSim (fun x => x) (some [1]) (some ([] : List ℚ)) = 0 :=
  (cosSim_guards_total (fun x => x) none none).2.2 [1] [] (by decide)

/-! ### Query-list parsing -/

/-- Claim C4, counterexample: on the two-line unparseable response
`"alpha\nbeta"` the fallback is `["alpha"]` — the response's first line,
not the full input text — and on the empty response the result is `[""]`,
a sequence containing an empty string, contradicting both the
fall-back-to-the-original-query part and the no-empty-string part of the
claim. -/
theorem extractQueries_counterexample :
    extractQueriesFromResponse "alpha\nbeta" = ["alpha"] ∧
    "alpha" ≠ "alpha\nbeta" ∧
    extractQueriesFromResponse "" = [""] ∧
    "" ∈ extractQueriesFromResponse "" :=
  ⟨by decide, by decide, by decide, by decide⟩

/-- Claim C4, amended: `extractQueriesFromResponse` parses numbered and
bulleted lines; when no line parses it falls back to the single-element
sequence containing the first line of the response (`""` for an empty
response); it never returns an empty sequence, though the returned
sequence may contain an empty string. -/
theorem extractQueries_fallback (response : String) :
    extractQueriesFromResponse response ≠ [] ∧
    (parsedQueries response = [] →
      extractQueriesFromResponse response = [(splitNl response).headD ""]) ∧
    (parsedQueries response ≠ [] →
      extractQueriesFromResponse response = parsedQueries response) := by
  refine ⟨?_, ?_, ?_⟩
  · by_cases h : (parsedQueries response).length ≠ 0
    · simp only [extractQueriesFromResponse]
      rw [if_pos h]
      intro hnil
      rw [hnil] at h
      exact h rfl
    · simp only [extractQueriesFromResponse]
      rw [if_neg h]
      simp
  · intro hp
    have h : ¬((parsedQueries response).length ≠ 0) := by rw [hp]; simp
    simp only [extractQueriesFromResponse]
    rw [if_neg h]
  · intro hp
    have h : (parsedQueries response).length ≠ 0 := by
      have := List.length_pos.mpr hp
      omega
    simp only [extractQueriesFromResponse]
    rw [if_pos h]

theorem extractQueries_fallback_witness :
    extractQueriesFromResponse "alpha\nbeta" = [(splitNl "alpha\nbeta").headD ""] :=
  (extractQueries_fallback "alpha\nbeta").2.1 (by decide)

/-! ### Search execution and URL deduplication -/

theorem execLoop_calls (search : String → Except Unit (List SearchResult)) :
    ∀ queries : List String, (execLoop search queries).2.2 = queries := by
  intro queries
  induction queries with
  | nil => rfl
  | cons q rest ih =>
    simp only [execLoop]
    cases search q with
    | error e => simpa using ih
    | ok rs =>
      by_cases h : 0 < rs.length
      · simp only [h, if_true, if_pos h]
        simpa using ih
      · simp only [if_neg h]
        simpa using ih

theorem deduplicateSources_sublist :
    ∀ (l : List SearchResult) (seen : List String),
      List.Sublist (deduplicateSources seen l) l := by
  intro l
  induction l with
  | nil => intro seen; simp [deduplicateSources]
  | cons s rest ih =>
    intro seen
    simp only [deduplicateSources]
    by_cases h : lowerStr s.url ∈ seen
    · rw [if_pos h]
      exact (ih seen).cons s
    · rw [if_neg h]
      exact (ih (lowerStr s.url :: seen)).cons₂ s

theorem deduplicateSources_notin_seen :
    ∀ (l : List SearchResult) (seen : List String) (y : SearchResult),
      y ∈ deduplicateSources seen l → lowerStr y.url ∉ seen := by
  intro l
  induction l with
  | nil => intro seen y hy; simp [deduplicateSources] at hy
  | cons s rest ih =>
    intro seen y hy
    simp only [deduplicateSources] at hy
    by_cases h : lowerStr s.url ∈ seen
    · rw [if_pos h] at hy
      exact ih seen y hy
    · rw [if_neg h] at hy
      rcases List.mem_cons.mp hy with h1 | h1
      · rw [h1]; exact h
      · have := ih _ y h1
        intro hcon
        exact this (List.mem_cons_of_mem _ hcon)

theorem deduplicateSources_pairwise :
    ∀ (l : List SearchResult) (seen : List String),
      List.Pairwise (fun a b => lowerStr a.url ≠ lowerStr b.url)
        (deduplicateSources seen l) := by
  intro l
  induction l with
  | nil => intro seen; simp [deduplicateSources]
  | cons s rest ih =>
    intro seen
    simp only [deduplicateSources]
    by_cases h : lowerStr s.url ∈ seen
    · rw [if_pos h]
      exact ih seen
    · rw [if_neg h]
      refine List.pairwise_cons.mpr ⟨?_, ih _⟩
      intro y hy
      have := deduplicateSources_notin_seen rest _ y hy
      intro hcon
      exact this (hcon ▸ List.mem_cons_self _ _)

theorem deduplicateSources_first_wins :
    ∀ (l : List SearchResult) (seen : List String) (y : SearchResult),
      y ∈ deduplicateSources seen l →
        l.find? (fun z => lowerStr z.url == lowerStr y.url) = some y := by
  intro l
  induction l with
  | nil => intro seen y hy; simp [deduplicateSources] at hy
  | cons s rest ih =>
    intro seen y hy
    have hnotin := deduplicateSources_notin_seen (s :: rest) seen y hy
    simp only [deduplicateSources] at hy
    by_cases h : lowerStr s.url ∈ seen
    · rw [if_pos h] at hy
      have hne : lowerStr s.url ≠ lowerStr y.url := by
        intro hcon
        exact hnotin (hcon ▸ h)
      rw [List.find?_cons_of_neg _ (by simp [hne]), ih seen y hy]
    · rw [if_neg h] at hy
      rcases List.mem_cons.mp hy with h1 | h1
      · rw [h1]
        rw [List.find?_cons_of_pos _ (by simp [h1])]
      · have hy' := deduplicateSources_notin_seen rest _ y h1
        have hne : lowerStr s.url ≠ lowerStr y.url := by
          intro hcon
          exact hy' (hcon ▸ List.mem_cons_self _ _)
        rw [List.find?_cons_of_neg _ (by simp [hne]), ih _ y h1]

theorem deduplicateSources_complete :
    ∀ (l : List SearchResult) (seen : List String) (x : SearchResult),
      x ∈ l → lowerStr x.url ∈ seen ∨
        ∃ y ∈ deduplicateSources seen l, lowerStr y.url = lowerStr x.url := by
  intro l
  induction l with
  | nil => intro seen x hx; simp at hx
  | cons s rest ih =>
    intro seen x hx
    simp only [deduplicateSources]
    by_cases h : lowerStr s.url ∈ seen
    · rw [if_pos h]
      rcases List.mem_cons.mp hx with h1 | h1
      · left; rw [h1]; exact h
      · exact ih seen x h1
    · rw [if_neg h]
      rcases List.mem_cons.mp hx with h1 | h1
      · right
        exact ⟨s, List.mem_cons_self _ _, by rw [h1]⟩
      · rcases ih (lowerStr s.url :: seen) x h1 with h2 | ⟨y, hy, hyeq⟩
        · rcases List.mem_cons.mp h2 with h3 | h3
          · right
            exact ⟨s, List.mem_cons_self _ _, h3.symm⟩
          · left; exact h3
        · right
          exact ⟨y, List.mem_cons_of_mem _ hy, hyeq⟩

/-- Claim C5: `executeSearches` issues exactly one search-backend call per
query in order (failures included), and the deduplicated `allSources` list
it returns is duplicate-free by lower-cased URL, is a subsequence of the
accumulated raw results, keeps for each URL the first occurrence in
accumulation order, and drops no URL entirely.  Failing queries are
skipped — the loop still visits every remaining query and the call stays
total. -/
theorem executeSearches_spec (search : String → Except Unit (List SearchResult))
    (queries : List String) :
    (execLoop search queries).2.2 = queries ∧
    List.Pairwise (fun a b => lowerStr a.url ≠ lowerStr b.url)
      (executeSearches search queries).allSources ∧
    List.Sublist (executeSearches search queries).allSources
      (execLoop search queries).2.1 ∧
    (∀ y ∈ (executeSearches search queries).allSources,
      (execLoop search queries).2.1.find?
        (fun z => lowerStr z.url == lowerStr y.url) = some y) ∧
    (∀ x ∈ (execLoop search queries).2.1,
      ∃ y ∈ (executeSearches search queries).allSources,
        lowerStr y.url = lowerStr x.url) := by
  refine ⟨execLoop_calls search queries, ?_, ?_, ?_, ?_⟩
  · exact deduplicateSources_pairwise _ []
  · exact deduplicateSources_sublist _ []
  · intro y hy
    exact deduplicateSources_first_wins _ [] y hy
  · intro x hx
    rcases deduplicateSources_complete _ [] x hx with h | h
    · simp at h
    · exact h

theorem executeSearches_spec_witness :
    (execLoop (fun q => if q = "bad" then Except.error () else Except.ok [sampleResult])
      ["a", "bad", "b"]).2.2 = ["a", "bad", "b"] :=
  (executeSearches_spec
    (fun q => if q = "bad" then Except.error () else Except.ok [sampleResult])
    ["a", "bad", "b"]).1

/-! ### The search-backend adapter -/

theorem core_webSearch_findSome (count : Nat)
    (attempts : List (Except Unit SearchResponse)) :
    Core.webSearch count attempts =
      ((attempts.findSome? (Core.tryUrl count)).getD []) := by
  induction attempts with
  | nil => rfl
  | cons a rest ih =>
    simp only [Core.webSearch, List.findSome?_cons]
    cases h : Core.tryUrl count a with
    | some rs => simp
    | none => simpa using ih

theorem serverJS_webSearch_findSome (count : Nat)
    (attempts : List (Except Unit SearchResponse)) :
    ServerJS.webSearch count attempts =
      ((attempts.findSome? (ServerJS.tryUrl count)).getD []) := by
  induction attempts with
  | nil => rfl
  | cons a rest ih =>
    simp only [ServerJS.webSearch, List.findSome?_cons]
    cases h : ServerJS.tryUrl count a with
    | some rs => simp
    | none => simpa using ih

theorem core_tryUrl_spec (count : Nat) (att : Except Unit SearchResponse)
    (rs : List SearchResult) (h : Core.tryUrl count att = some rs) :
    0 < rs.length ∧ ∃ resp, att = Except.ok resp ∧ resp.ok = true ∧
      containsStr resp.contentType "application/json" = true ∧
      rs = Core.processResults count resp := by
  cases att with
  | error e => simp [Core.tryUrl] at h
  | ok resp =>
    simp only [Core.tryUrl] at h
    split at h
    next h1 => exact absurd h (by simp)
    next h1 =>
      split at h
      next h2 => exact absurd h (by simp)
      next h2 =>
        split at h
        next h3 =>
          injection h with hrs
          refine ⟨hrs ▸ h3, resp, rfl, ?_, ?_, hrs.symm⟩
          · revert h1; cases resp.ok <;> simp
          · revert h2; cases containsStr resp.contentType "application/json" <;> simp
        next h3 => exact absurd h (by simp)

theorem serverJS_tryUrl_spec (count : Nat) (att : Except Unit SearchResponse)
    (rs : List SearchResult) (h : ServerJS.tryUrl count att = some rs) :
    0 < rs.length ∧ ∃ resp, att = Except.ok resp ∧ resp.ok = true ∧
      containsStr resp.contentType "application/json" = true ∧
      rs = ServerJS.processResults count resp := by
  cases att with
  | error e => simp [ServerJS.tryUrl] at h
  | ok resp =>
    simp only [ServerJS.tryUrl] at h
    split at h
    next h1 => exact absurd h (by simp)
    next h1 =>
      split at h
      next h2 => exact absurd h (by simp)
      next h2 =>
        split at h
        next h3 =>
          injection h with hrs
          refine ⟨hrs ▸ h3, resp, rfl, ?_, ?_, hrs.symm⟩
          · revert h1; cases resp.ok <;> simp
          · revert h2; cases containsStr resp.contentType "application/json" <;> simp
        next h3 => exact absurd h (by simp)

theorem core_processResults_mem (count : Nat) (resp : SearchResponse)
    (x : SearchResult) (hx : x ∈ Core.processResults count resp) :
    ∃ raw ∈ resp.results, startsWithStr raw.url "http" = true ∧
      x = Core.mapRaw raw := by
  simp only [Core.processResults] at hx
  rcases List.mem_map.mp hx with ⟨raw, hraw, hmap⟩
  have hraw2 : raw ∈ resp.results.filter (fun r => startsWithStr r.url "http") :=
    (List.take_sublist _ _).subset hraw
  have hf := List.mem_filter.mp hraw2
  exact ⟨raw, hf.1, hf.2, hmap.symm⟩

theorem serverJS_processResults_mem (count : Nat) (resp : SearchResponse)
    (x : SearchResult) (hx : x ∈ ServerJS.processResults count resp) :
    ∃ raw ∈ resp.results, startsWithStr raw.url "http" = true ∧
      x = Core.mapRaw raw := by
  simp only [ServerJS.processResults] at hx
  have hx2 := (List.mem_filter.mp hx).1
  rcases List.mem_map.mp hx2 with ⟨raw, hraw, hmap⟩
  have hraw2 : raw ∈ resp.results.filter
      (fun r => r.url ≠ "" && startsWithStr r.url "http") :=
    (List.take_sublist _ _).subset hraw
  have hf := List.mem_filter.mp hraw2
  have hp : (raw.url ≠ "" && startsWithStr raw.url "http") = true := hf.2
  exact ⟨raw, hf.1, (Bool.and_eq_true _ _ |>.mp hp).2, hmap.symm⟩

/-- Claim C6, counterexample: a JSON response whose only raw result has an
`http`-prefixed URL but an *empty title* is accepted by both `webSearch`
variants, which return that result with the URL substituted as its title —
the raw result is not discarded, contradicting the claim that results
lacking a non-empty title never appear in the returned sequence. -/
theorem webSearch_counterexample :
    Core.webSearch 10 [Except.ok respNoTitle] = [⟨"http://a", "http://a", ""⟩] ∧
    ServerJS.webSearch 10 [Except.ok respNoTitle] = [⟨"http://a", "http://a", ""⟩] ∧
    respNoTitle.results = [⟨"http://a", "", "", ""⟩] ∧
    rawNoTitle.title = "" :=
  ⟨by decide, by decide, by decide, rfl⟩

/-- Claim C6, amended: both `webSearch` variants try their URL variants in
order and return the processed results of the first variant whose fetch
succeeds with a 2xx status, a JSON content type and a non-empty processed
result list; every returned result arises from a raw result whose URL is
`http`-prefixed (raw results without such a URL are discarded), while a raw
result with an empty title is kept, its URL substituted for the title by
the `r.title || r.url` fallback. -/
theorem webSearch_amended (count : Nat)
    (attempts : List (Except Unit SearchResponse)) :
    Core.webSearch count attempts =
      ((attempts.findSome? (Core.tryUrl count)).getD []) ∧
    ServerJS.webSearch count attempts =
      ((attempts.findSome? (ServerJS.tryUrl count)).getD []) ∧
    (∀ att rs, Core.tryUrl count att = some rs →
      0 < rs.length ∧ ∃ resp, att = Except.ok resp ∧ resp.ok = true ∧
        containsStr resp.contentType "application/json" = true ∧
        rs = Core.processResults count resp) ∧
    (∀ resp x, x ∈ Core.processResults count resp →
      ∃ raw ∈ resp.results, startsWithStr raw.url "http" = true ∧
        x = Core.mapRaw raw) ∧
    (∀ att rs, ServerJS.tryUrl count att = some rs →
      0 < rs.length ∧ ∃ resp, att = Except.ok resp ∧ resp.ok = true ∧
        containsStr resp.contentType "application/json" = true ∧
        rs = ServerJS.processResults count resp) ∧
    (∀ resp x, x ∈ ServerJS.processResults count resp →
      ∃ raw ∈ resp.results, startsWithStr raw.url "http" = true ∧
        x = Core.mapRaw raw) :=
  ⟨core_webSearch_findSome count attempts,
    serverJS_webSearch_findSome count attempts,
    fun att rs h => core_tryUrl_spec count att rs h,
    fun resp x hx => core_processResults_mem count resp x hx,
    fun att rs h => serverJS_tryUrl_spec count att rs h,
    fun resp x hx => serverJS_processResults_mem count resp x hx⟩

theorem webSearch_amended_witness :
    Core.webSearch 10 [Except.ok respNoTitle] =
      (([Except.ok respNoTitle].findSome? (Core.tryUrl 10)).getD []) ∧
    0 < ([(⟨"http://a", "http://a", ""⟩ : SearchResult)]).length := by
  have h := webSearch_amended 10 [Except.ok respNoTitle]
  exact ⟨h.1,
    (h.2.2.1 (Except.ok respNoTitle) [⟨"http://a", "http://a", ""⟩] (by decide)).1⟩

/-! ### The stable descending sort of `retrieveLongTermMemory` -/

theorem insertDesc_perm (x : ScoredItem) (l : List ScoredItem) :
    List.Perm (insertDesc x l) (x :: l) := by
  induction l with
  | nil => exact List.Perm.refl _
  | cons y ys ih =>
    simp only [insertDesc]
    by_cases h : y.similarity < x.similarity
    · rw [if_pos h]
    · rw [if_neg h]
      exact List.Perm.trans (List.Perm.cons y ih) (List.Perm.swap x y ys)

theorem sortDescAux_perm : ∀ (l acc : List ScoredItem),
    List.Perm (l.foldl (fun acc x => insertDesc x acc) acc) (acc ++ l) := by
  intro l
  induction l with
  | nil => intro acc; simp
  | cons x xs ih =>
    intro acc
    simp only [List.foldl_cons]
    exact List.Perm.trans (ih _)
      (List.Perm.trans (List.Perm.append_right xs (insertDesc_perm x acc))
        List.perm_middle.symm)

theorem sortDesc_perm (l : List ScoredItem) : List.Perm (sortDesc l) l := by
  simpa using sortDescAux_perm l []

theorem insertDesc_pairwise (x : ScoredItem) (l : List ScoredItem)
    (h : List.Pairwise (fun a b => b.similarity ≤ a.similarity) l) :
    List.Pairwise (fun a b => b.similarity ≤ a.similarity) (insertDesc x l) := by
  induction l with
  | nil => simp [insertDesc]
  | cons y ys ih =>
    rcases List.pairwise_cons.mp h with ⟨hy, hys⟩
    simp only [insertDesc]
    by_cases hc : y.similarity < x.similarity
    · rw [if_pos hc]
      refine List.pairwise_cons.mpr ⟨?_, h⟩
      intro z hz
      rcases List.mem_cons.mp hz with h1 | h1
      · rw [h1]; exact le_of_lt hc
      · exact le_trans (hy z h1) (le_of_lt hc)
    · rw [if_neg hc]
      refine List.pairwise_cons.mpr ⟨?_, ih hys⟩
      intro z hz
      have hz2 : z ∈ x :: ys := (insertDesc_perm x ys).subset hz
      rcases List.mem_cons.mp hz2 with h1 | h1
      · rw [h1]; exact le_of_not_lt hc
      · exact hy z h1

theorem sortDescAux_pairwise : ∀ (l acc : List ScoredItem),
    List.Pairwise (fun a b => b.similarity ≤ a.similarity) acc →
    List.Pairwise (fun a b => b.similarity ≤ a.similarity)
      (l.foldl (fun acc x => insertDesc x acc) acc) := by
  intro l
  induction l with
  | nil => intro acc h; simpa using h
  | cons x xs ih =>
    intro acc h
    simp only [List.foldl_cons]
    exact ih _ (insertDesc_pairwise x acc h)

theorem sortDesc_pairwise (l : List ScoredItem) :
    List.Pairwise (fun a b => b.similarity ≤ a.similarity) (sortDesc l) :=
  sortDescAux_pairwise l [] List.Pairwise.nil

theorem insertDesc_filter_key (s : ℚ) (x : ScoredItem) (l : List ScoredItem)
    (hsort : List.Pairwise (fun a b => b.similarity ≤ a.similarity) l) :
    (insertDesc x l).filter (fun z => decide (z.similarity = s)) =
      if x.similarity = s
      then l.filter (fun z => decide (z.similarity = s)) ++ [x]
      else l.filter (fun z => decide (z.similarity = s)) := by
  induction l with
  | nil =>
    by_cases hx : x.similarity = s
    · rw [if_pos hx]; simp [insertDesc, List.filter_cons, hx]
    · rw [if_neg hx]; simp [insertDesc, List.filter_cons, hx]
  | cons y ys ih =>
    rcases List.pairwise_cons.mp hsort with ⟨hy, hys⟩
    simp only [insertDesc]
    by_cases hc : y.similarity < x.similarity
    · rw [if_pos hc]
      by_cases hx : x.similarity = s
      · rw [if_pos hx]
        have hnil : (y :: ys).filter (fun z => decide (z.similarity = s)) = [] := by
          rw [List.filter_eq_nil_iff]
          intro z hz
          have hzle : z.similarity ≤ y.similarity := by
            rcases List.mem_cons.mp hz with h1 | h1
            · rw [h1]
            · exact hy z h1
          have hlt : z.similarity < s := lt_of_le_of_lt hzle (hx ▸ hc)
          simp [ne_of_lt hlt]
        rw [List.filter_cons_of_pos (by simp [hx]), hnil]
        rfl
      · rw [if_neg hx]
        rw [List.filter_cons_of_neg (by simp [hx])]
    · rw [if_neg hc]
      by_cases hx : x.similarity = s
      · rw [if_pos hx]
        rw [List.filter_cons, List.filter_cons, ih hys, if_pos hx]
        by_cases hyk : decide (y.similarity = s) = true
        · simp [hyk]
        · simp [hyk]
      · rw [if_neg hx]
        rw [List.filter_cons, List.filter_cons, ih hys, if_neg hx]

theorem sortDescAux_filter_key (s : ℚ) : ∀ (l acc : List ScoredItem),
    List.Pairwise (fun a b => b.similarity ≤ a.similarity) acc →
    (l.foldl (fun acc x => insertDesc x acc) acc).filter
        (fun z => decide (z.similarity = s)) =
      acc.filter (fun z => decide (z.similarity = s)) ++
        l.filter (fun z => decide (z.similarity = s)) := by
  intro l
  induction l with
  | nil => intro acc _; simp
  | cons x xs ih =>
    intro acc h
    simp only [List.foldl_cons]
    rw [ih _ (insertDesc_pairwise x acc h), insertDesc_filter_key s x acc h]
    by_cases hx : x.similarity = s
    · rw [if_pos hx, List.filter_cons_of_pos (by simp [hx]), List.append_assoc]
      rfl
    · rw [if_neg hx, List.filter_cons_of_neg (by simp [hx])]

/-- Stability of the sort: restricted to any one similarity value, the
sorted list equals the input list. -/
theorem sortDesc_filter_key (s : ℚ) (l : List ScoredItem) :
    (sortDesc l).filter (fun z => decide (z.similarity = s)) =
      l.filter (fun z => decide (z.similarity = s)) := by
  simpa using sortDescAux_filter_key s l [] List.Pairwise.nil

/-! ### Memory retrieval -/

/-- Claim C1: for every store and query, `retrieveLongTermMemory` returns
at most `k` items, each with similarity ≥ `minSim`; the result is sorted
non-increasingly by similarity with ties broken by insertion order (its
restriction to any one similarity value is a subsequence of the
insertion-ordered candidate list); and it returns `[]` when the store is
empty or the embedding outcome is `none`, rather than throwing. -/
theorem retrieveLongTermMemory_spec (sqrtFn : ℚ → ℚ)
    (queryEmbedding : Option (List ℚ)) (memory : Memory) (k : Nat) (minSim : ℚ) :
    (retrieveLongTermMemory sqrtFn queryEmbedding memory k minSim).length ≤ k ∧
    (∀ x ∈ retrieveLongTermMemory sqrtFn queryEmbedding memory k minSim,
      minSim ≤ x.similarity) ∧
    List.Pairwise (fun a b => b.similarity ≤ a.similarity)
      (retrieveLongTermMemory sqrtFn queryEmbedding memory k minSim) ∧
    (∀ (s : ℚ) (qe : List ℚ), queryEmbedding = some qe →
      List.Sublist
        ((retrieveLongTermMemory sqrtFn queryEmbedding memory k minSim).filter
          (fun z => decide (z.similarity = s)))
        ((scoredCandidates sqrtFn qe memory minSim).filter
          (fun z => decide (z.similarity = s)))) ∧
    (memory.longTerm = [] →
      retrieveLongTermMemory sqrtFn queryEmbedding memory k minSim = []) ∧
    (queryEmbedding = none →
      retrieveLongTermMemory sqrtFn queryEmbedding memory k minSim = []) := by
  by_cases hemp : memory.longTerm.isEmpty
  · have hr : retrieveLongTermMemory sqrtFn queryEmbedding memory k minSim = [] := by
      simp [retrieveLongTermMemory, hemp]
    rw [hr]
    refine ⟨Nat.zero_le k, by simp, List.Pairwise.nil, ?_, fun _ => rfl, fun _ => rfl⟩
    intro s qe _
    simp
  · cases queryEmbedding with
    | none =>
      have hr : retrieveLongTermMemory sqrtFn none memory k minSim = [] := by
        simp [retrieveLongTermMemory, hemp]
      rw [hr]
      refine ⟨Nat.zero_le k, by simp, List.Pairwise.nil, ?_, fun _ => rfl, fun _ => rfl⟩
      intro s qe hqe
      cases hqe
    | some qe0 =>
      have hr : retrieveLongTermMemory sqrtFn (some qe0) memory k minSim =
          (sortDesc (scoredCandidates sqrtFn qe0 memory minSim)).take k := by
        simp [retrieveLongTermMemory, hemp]
      rw [hr]
      refine ⟨List.length_take_le _ _, ?_, ?_, ?_, ?_, ?_⟩
      · intro x hx
        have h1 : x ∈ sortDesc (scoredCandidates sqrtFn qe0 memory minSim) :=
          (List.take_sublist _ _).subset hx
        have h2 : x ∈ scoredCandidates sqrtFn qe0 memory minSim :=
          (sortDesc_perm _).subset h1
        exact of_decide_eq_true (List.mem_filter.mp h2).2
      · exact (sortDesc_pairwise _).sublist (List.take_sublist _ _)
      · intro s qe hqe
        injection hqe with hqe'
        subst hqe'
        have hsub := (List.take_sublist k
            (sortDesc (scoredCandidates sqrtFn qe0 memory minSim))).filter
          (fun z => decide (z.similarity = s))
        rw [sortDesc_filter_key] at hsub
        exact hsub
      · intro hmem
        exact ((hemp (by simp [hmem])).elim)
      · intro hqe
        cases hqe

theorem retrieveLongTermMemory_witness :
    (retrieveLongTermMemory (fun x => x) (some [1])
      ⟨[⟨1, "note", "general", "medium", [], "t0", some [1], "system"⟩], 2⟩
      5 (3 / 10)).length ≤ 5 ∧
    retrieveLongTermMemory (fun x => x) none ⟨[], 1⟩ 5 (3 / 10) = [] :=
  ⟨(retrieveLongTermMemory_spec (fun x => x) (some [1])
      ⟨[⟨1, "note", "general", "medium", [], "t0", some [1], "system"⟩], 2⟩
      5 (3 / 10)).1,
    (retrieveLongTermMemory_spec (fun x => x) none ⟨[], 1⟩ 5 (3 / 10)).2.2.2.2.2 rfl⟩

/-! ### Memory upsert -/

theorem isDuplicate_iff (sqrtFn : ℚ → ℚ) (memory : Memory)
    (emb : Option (List ℚ)) :
    isDuplicate sqrtFn memory emb = true ↔ DupWitness sqrtFn memory emb := by
  cases emb with
  | none => simp [isDuplicate, DupWitness]
  | some e =>
    simp only [isDuplicate, DupWitness, Bool.and_eq_true, decide_eq_true_eq,
      List.any_eq_true]
    constructor
    · rintro ⟨_, ex, hex, hmatch⟩
      refine ⟨e, rfl, ex, hex, ?_⟩
      cases hee : ex.embedding with
      | none => rw [hee] at hmatch; simp at hmatch
      | some ee =>
        rw [hee] at hmatch
        exact ⟨ee, rfl, of_decide_eq_true hmatch⟩
    · rintro ⟨e0, he0, ex, hex, ee, hee, hsim⟩
      injection he0 with he1
      subst he1
      refine ⟨List.length_pos.mpr (List.ne_nil_of_mem hex), ex, hex, ?_⟩
      rw [hee]
      exact decide_eq_true hsim

theorem upsertLoop_frame (sqrtFn : ℚ → ℚ) (embed : String → Option (List ℚ))
    (now : String) :
    ∀ (items : List (Option Candidate)) (st : Memory × List MemoryItem),
    ∃ new : List MemoryItem,
      (items.foldl (upsertStep sqrtFn embed now) st).1.longTerm =
        st.1.longTerm ++ new ∧
      (items.foldl (upsertStep sqrtFn embed now) st).2 = st.2 ++ new ∧
      (items.foldl (upsertStep sqrtFn embed now) st).1.nextId =
        st.1.nextId + new.length := by
  intro items
  induction items with
  | nil => intro st; exact ⟨[], by simp, by simp, by simp⟩
  | cons c cs ih =>
    intro st
    simp only [List.foldl_cons]
    cases c with
    | none =>
      simp only [upsertStep]
      exact ih st
    | some cc =>
      simp only [upsertStep]
      by_cases h1 : cc.content = ""
      · rw [if_pos h1]; exact ih st
      · rw [if_neg h1]
        by_cases h2 : isDuplicate sqrtFn st.1 (embed cc.content) = true
        · rw [if_pos h2]; exact ih st
        · rw [if_neg h2]
          rcases ih (⟨st.1.longTerm ++ [newItemFor embed now st.1 cc],
              st.1.nextId + 1⟩, st.2 ++ [newItemFor embed now st.1 cc])
            with ⟨new, hA, hB, hC⟩
          refine ⟨newItemFor embed now st.1 cc :: new, ?_, ?_, ?_⟩
          · rw [hA]; simp
          · rw [hB]; simp
          · rw [hC]; simp; omega

/-- Claim C9: one call to `upsertLongTermMemory` writes the persisted
collection at most once — exactly once when something was inserted and not
at all otherwise; the persisted `longTerm` list grows by exactly the
returned (inserted) items and `nextId` by their number; and a call that
returns the empty sequence leaves the persisted file (items and `nextId`)
completely unchanged. -/
theorem upsertLongTermMemory_frame (sqrtFn : ℚ → ℚ)
    (embed : String → Option (List ℚ)) (now : String) (file : MemoryFile)
    (items : List (Option Candidate)) :
    (upsertLongTermMemory sqrtFn embed now file items).1.writes ≤ file.writes + 1 ∧
    ((upsertLongTermMemory sqrtFn embed now file items).2 ≠ [] →
      (upsertLongTermMemory sqrtFn embed now file items).1.writes = file.writes + 1) ∧
    ((upsertLongTermMemory sqrtFn embed now file items).2 = [] →
      (upsertLongTermMemory sqrtFn embed now file items).1 = file) ∧
    (upsertLongTermMemory sqrtFn embed now file items).1.mem.longTerm =
      file.mem.longTerm ++ (upsertLongTermMemory sqrtFn embed now file items).2 ∧
    (upsertLongTermMemory sqrtFn embed now file items).1.mem.nextId =
      file.mem.nextId + (upsertLongTermMemory sqrtFn embed now file items).2.length := by
  rcases upsertLoop_frame sqrtFn embed now items (file.mem, []) with ⟨new, hA, hB, hC⟩
  have hA' : (upsertLoop sqrtFn embed now file.mem items).1.longTerm =
      file.mem.longTerm ++ new := hA
  have hB' : (upsertLoop sqrtFn embed now file.mem items).2 = new := by
    simpa using hB
  have hC' : (upsertLoop sqrtFn embed now file.mem items).1.nextId =
      file.mem.nextId + new.length := hC
  by_cases h : 0 < (upsertLoop sqrtFn embed now file.mem items).2.length
  · have hres : upsertLongTermMemory sqrtFn embed now file items =
        (⟨(upsertLoop sqrtFn embed now file.mem items).1, file.writes + 1⟩,
          (upsertLoop sqrtFn embed now file.mem items).2) := by
      simp only [upsertLongTermMemory]
      rw [if_pos h]
    rw [hres]
    refine ⟨le_refl _, fun _ => rfl, ?_, ?_, ?_⟩
    · intro h0
      rw [h0] at h
      simp at h
    · show (upsertLoop sqrtFn embed now file.mem items).1.longTerm =
        file.mem.longTerm ++ (upsertLoop sqrtFn embed now file.mem items).2
      rw [hA', hB']
    · show (upsertLoop sqrtFn embed now file.mem items).1.nextId =
        file.mem.nextId + (upsertLoop sqrtFn embed now file.mem items).2.length
      rw [hC', hB']
  · have hnil : (upsertLoop sqrtFn embed now file.mem items).2 = [] := by
      rcases hx : (upsertLoop sqrtFn embed now file.mem items).2 with _ | ⟨a, l⟩
      · rfl
      · rw [hx] at h; simp at h
    have hres : upsertLongTermMemory sqrtFn embed now file items =
        (file, (upsertLoop sqrtFn embed now file.mem items).2) := by
      simp only [upsertLongTermMemory]
      rw [if_neg h]
    rw [hres, hnil]
    have hnew : new = [] := by rw [← hB', hnil]
    refine ⟨Nat.le_succ _, by simp, fun _ => rfl, ?_, ?_⟩
    · simp
    · simp

theorem upsertLongTermMemory_frame_witness :
    (upsertLongTermMemory (fun x => x) (fun _ => none) "t0" ⟨⟨[], 1⟩, 0⟩ []).1 =
      ⟨⟨[], 1⟩, 0⟩ :=
  (upsertLongTermMemory_frame (fun x => x) (fun _ => none) "t0"
    ⟨⟨[], 1⟩, 0⟩ []).2.2.1 rfl

/-- Claim C2: for an existing collection and a candidate with non-empty
content, if the candidate's embedding has cosine similarity above 0.95
with some stored embedded item then the upsert skips it (persisted file
unchanged, nothing returned); otherwise the upsert inserts it — the
collection grows by exactly one item, the new item carries the
collection's current `nextId`, and `nextId` is incremented. -/
theorem upsertLongTermMemory_dedup (sqrtFn : ℚ → ℚ)
    (embed : String → Option (List ℚ)) (now : String) (file : MemoryFile)
    (c : Candidate) (h : c.content ≠ "") :
    (DupWitness sqrtFn file.mem (embed c.content) →
      (upsertLongTermMemory sqrtFn embed now file [some c]).1 = file ∧
      (upsertLongTermMemory sqrtFn embed now file [some c]).2 = [] ∧
      (upsertLongTermMemory sqrtFn embed now file [some c]).1.mem.longTerm.length =
        file.mem.longTerm.length) ∧
    (¬DupWitness sqrtFn file.mem (embed c.content) →
      (upsertLongTermMemory sqrtFn embed now file [some c]).2 =
        [newItemFor embed now file.mem c] ∧
      (newItemFor embed now file.mem c).id = file.mem.nextId ∧
      (upsertLongTermMemory sqrtFn embed now file [some c]).1.mem.longTerm =
        file.mem.longTerm ++ [newItemFor embed now file.mem c] ∧
      (upsertLongTermMemory sqrtFn embed now file [some c]).1.mem.longTerm.length =
        file.mem.longTerm.length + 1 ∧
      (upsertLongTermMemory sqrtFn embed now file [some c]).1.mem.nextId =
        file.mem.nextId + 1 ∧
      (upsertLongTermMemory sqrtFn embed now file [some c]).1.writes =
        file.writes + 1) := by
  constructor
  · intro hdup
    have hd : isDuplicate sqrtFn file.mem (embed c.content) = true :=
      (isDuplicate_iff sqrtFn file.mem (embed c.content)).mpr hdup
    have hloop : upsertLoop sqrtFn embed now file.mem [some c] = (file.mem, []) := by
      simp [upsertLoop, upsertStep, h, hd]
    have hres : upsertLongTermMemory sqrtFn embed now file [some c] = (file, []) := by
      simp [upsertLongTermMemory, hloop]
    rw [hres]
    exact ⟨rfl, rfl, rfl⟩
  · intro hnd
    have hd : isDuplicate sqrtFn file.mem (embed c.content) = false := by
      cases hv : isDuplicate sqrtFn file.mem (embed c.content) with
      | false => rfl
      | true =>
        exact absurd ((isDuplicate_iff sqrtFn file.mem (embed c.content)).mp hv) hnd
    have hloop : upsertLoop sqrtFn embed now file.mem [some c] =
        (⟨file.mem.longTerm ++ [newItemFor embed now file.mem c],
          file.mem.nextId + 1⟩, [newItemFor embed now file.mem c]) := by
      simp [upsertLoop, upsertStep, h, hd]
    have hres : upsertLongTermMemory sqrtFn embed now file [some c] =
        (⟨⟨file.mem.longTerm ++ [newItemFor embed now file.mem c],
            file.mem.nextId + 1⟩, file.writes + 1⟩,
          [newItemFor embed now file.mem c]) := by
      simp [upsertLongTermMemory, hloop]
    rw [hres]
    exact ⟨rfl, rfl, rfl, by simp, rfl, rfl⟩

theorem upsertLongTermMemory_dedup_witness :
    (upsertLongTermMemory (fun x => x) (fun _ => none) "t0" ⟨⟨[], 1⟩, 0⟩
      [some ⟨"hello", "", "", none, ""⟩]).2 =
      [newItemFor (fun _ => none) "t0" ⟨[], 1⟩ ⟨"hello", "", "", none, ""⟩] ∧
    (newItemFor (fun _ => none) "t0" ⟨[], 1⟩ ⟨"hello", "", "", none, ""⟩).id = 1 := by
  have hnd : ¬DupWitness (fun x => x) (⟨[], 1⟩ : Memory)
      ((fun _ => none) "hello" : Option (List ℚ)) := by
    simp [DupWitness]
  have h := (upsertLongTermMemory_dedup (fun x => x) (fun _ => none) "t0"
    ⟨⟨[], 1⟩, 0⟩ ⟨"hello", "", "", none, ""⟩ (by decide)).2 hnd
  exact ⟨h.1, h.2.1⟩

end EvolveUI
